import Mathlib

/-!
Verification of `dorsal-whisper` (`src/dorsal_whisper/model.py`).

The module has two parts:
* a process-wide single-slot model cache (`FasterWhisperTranscriber._load_model`),
  embedded here as a state-passing function over `CacheState`; opaque
  `WhisperModel` handles are modelled as natural numbers allocated from a
  fresh-id counter, and every constructor attempt is recorded in a call log
  `(model_size_or_path, device, compute_type)`;
* the transcription pipeline (`FasterWhisperTranscriber.main`), embedded as
  pure functions over the list of raw segments the decoder produced.
  Python floats are modelled as exact rationals (timestamps, durations,
  log-probabilities) and the score computation `math.exp` as `Real.exp`;
  `round(x, n)` is modelled as `round (x * 10 ^ n) / 10 ^ n` with Mathlib's
  `round` (the claims under study never sit on a rounding tie, where
  Python's bankers rounding would differ).
-/

namespace DorsalWhisper

/-- `MAX_TEXT_LENGTH = 524288` (model.py line 34). -/
def MAX_TEXT_LENGTH : ℕ := 524288

/-- `FasterWhisperTranscriber.default_model_size = "base"` (model.py line 49). -/
def default_model_size : String := "base"

/-- Python `round(x, ndigits)` on exact rationals. -/
def pyRound (ndigits : ℕ) (x : ℚ) : ℚ :=
  (round (x * 10 ^ ndigits) : ℚ) / 10 ^ ndigits

/-- Python `round(x, ndigits)` on reals (used for the `math.exp` score). -/
noncomputable def pyRoundR (ndigits : ℕ) (x : ℝ) : ℝ :=
  (round (x * 10 ^ ndigits) : ℝ) / 10 ^ ndigits

/-- Python `str.strip()`: drop whitespace from both ends. -/
def pyStrip (s : String) : String :=
  ⟨((s.data.dropWhile Char.isWhitespace).reverse.dropWhile Char.isWhitespace).reverse⟩

/-! ## The model cache (`_load_model`, model.py lines 52-83) -/

/-- The process-wide state touched by `_load_model`.

* `slot` is `FasterWhisperTranscriber._active_model`: `none`, or one
  `(cache_key, model)` pair.
* `next` is the fresh-id counter modelling `WhisperModel` instantiation: a
  successful constructor call returns handle `next` and bumps the counter,
  so distinct successful constructions never alias.
* `calls` logs every `WhisperModel(model_size_or_path, device, compute_type)`
  constructor attempt, successful or not. -/
structure CacheState where
  slot : Option (String × ℕ)
  next : ℕ
  calls : List (String × String × String)

/-- Outcome oracle for one `_load_model` call: whether the `device="auto"`
constructor raises `ValueError`/`RuntimeError`, whether the CPU-int8 fallback
constructor raises, and the message of the fallback's exception. -/
structure LoadOutcome where
  autoFails : Bool
  cpuFails : Bool
  cpuErrMsg : String

/-- `cache_key = f"{model_size}-{compute_type}"` (model.py line 53). -/
def cacheKey (model_size compute_type : String) : String :=
  model_size ++ "-" ++ compute_type

/-- The `try`/`except` constructor sequence of `_load_model` (lines 70-83),
run when the cache did not hit: attempt `device="auto"` with the requested
compute type, fall back to `device="cpu"`, `compute_type="int8"` on failure,
and on success store `(cache_key, model)` in the slot. -/
def attemptLoad (st : CacheState) (model_size compute_type : String)
    (oc : LoadOutcome) : Except String ℕ × CacheState :=
  let key := cacheKey model_size compute_type
  let st1 : CacheState :=
    { st with calls := st.calls ++ [(model_size, "auto", compute_type)] }
  if oc.autoFails then
    let st2 : CacheState :=
      { st1 with calls := st1.calls ++ [(model_size, "cpu", "int8")] }
    if oc.cpuFails then
      (.error oc.cpuErrMsg, st2)
    else
      (.ok st2.next, { st2 with slot := some (key, st2.next), next := st2.next + 1 })
  else
    (.ok st1.next, { st1 with slot := some (key, st1.next), next := st1.next + 1 })

/-- `FasterWhisperTranscriber._load_model` (model.py lines 52-83): cache hit
returns the stored handle unchanged; otherwise any occupant is evicted
(slot cleared) before the load attempt. -/
def load_model (st : CacheState) (model_size compute_type : String)
    (oc : LoadOutcome) : Except String ℕ × CacheState :=
  let cache_key := cacheKey model_size compute_type
  match st.slot with
  | some (k, m) =>
    if k = cache_key then (.ok m, st)
    else attemptLoad { st with slot := none } model_size compute_type oc
  | none => attemptLoad st model_size compute_type oc

/-- Well-formedness: any handle resident in the slot was allocated by the
counter, i.e. is below `next`. -/
def CacheState.WF (st : CacheState) : Prop :=
  match st.slot with
  | none => True
  | some (_, m) => m < st.next

/-- The model-acquisition phase of `main` (model.py lines 113-119): resolve
the target size, call `_load_model`, and on any exception set a descriptive
error and return no record. Returns (record-so-far, error message, state). -/
def main_load (st : CacheState) (model_size : Option String)
    (compute_type : String) (oc : LoadOutcome) :
    Option ℕ × Option String × CacheState :=
  let target_size := model_size.getD default_model_size
  match load_model st target_size compute_type oc with
  | (.ok m, st1) => (some m, none, st1)
  | (.error e, st1) =>
    (none, some ("Failed to load model '" ++ target_size ++ "': " ++ e), st1)

/-! ## The transcription pipeline (`main`, model.py lines 121-201) -/

/-- One word of a raw segment's word list (faster-whisper `Word`). -/
structure Word where
  start : ℚ
  end_ : ℚ

/-- A raw segment produced by the decoder. `words = none` models a segment
without a `words` attribute or with `words = None`; `some []` models an
empty word list (both are falsy in the Python guard). -/
structure RawSegment where
  text : String
  start : ℚ
  end_ : ℚ
  avg_logprob : ℚ
  words : Option (List Word)

/-- One entry of the output `segments` list (model.py lines 169-176). -/
structure OutputSegment where
  text : String
  start_time : ℚ
  end_time : ℚ
  score : ℝ

/-- The boundary selection of model.py lines 162-167: the segment's own
`start`/`end`, replaced by the first word's start and the last word's end
when word timestamps were requested and `seg.words` is truthy (present and
non-empty). -/
def sharpTimes (use_word_timing : Bool) (seg : RawSegment) : ℚ × ℚ :=
  match use_word_timing, seg.words with
  | true, some (w :: ws) => (w.start, (ws.getLastD w).end_)
  | _, _ => (seg.start, seg.end_)

/-- The per-segment normalization of the loop at model.py lines 158-176:
trim the text, sharpen the boundaries via `sharpTimes`, round times to 3
decimals and `exp(avg_logprob)` to 4. -/
noncomputable def mkOutputSegment (use_word_timing : Bool) (seg : RawSegment) :
    OutputSegment :=
  { text := pyStrip seg.text
    start_time := pyRound 3 (sharpTimes use_word_timing seg).1
    end_time := pyRound 3 (sharpTimes use_word_timing seg).2
    score := pyRoundR 4 (Real.exp (seg.avg_logprob : ℝ)) }

/-- `full_text = " ".join(full_text_parts)` where `full_text_parts` collects
the trimmed segment texts (model.py lines 159-160 and 178). -/
def joinedText (raws : List RawSegment) : String :=
  String.intercalate " " (raws.map fun s => pyStrip s.text)

/-- The decoder metadata record (`info`). -/
structure TranscriptionInfo where
  language : String
  language_probability : ℚ
  duration : ℚ

/-- The returned record (model.py lines 193-201); `language_probability`
stands for `attributes["language_probability"]`. -/
structure TranscriptionRecord where
  producer : String
  text : String
  language : String
  duration : ℚ
  score_explanation : String
  segments : List OutputSegment
  language_probability : ℚ

/-- The record-assembly tail of `main` (model.py lines 152-201), given the
materialized raw segments. `normalize_language_alpha3` is the opaque
language normalizer imported from the host library. -/
noncomputable def buildRecord (target_size : String)
    (use_word_timing force : Bool)
    (normalize_language_alpha3 : String → String)
    (info : TranscriptionInfo) (raws : List RawSegment) : TranscriptionRecord :=
  let schema_segments := raws.map (mkOutputSegment use_word_timing)
  let full_text0 := joinedText raws
  let full_text :=
    if MAX_TEXT_LENGTH < full_text0.length then
      if force then full_text0 else ⟨full_text0.data.take MAX_TEXT_LENGTH⟩
    else full_text0
  { producer := "faster-whisper-" ++ target_size
    text := full_text
    language := normalize_language_alpha3 info.language
    duration := info.duration
    score_explanation := "Probability derived from avg_logprob (exp)"
    segments := schema_segments
    language_probability := pyRound 4 info.language_probability }

/-- The consumption loop of model.py lines 141-146: materialize the stream
in order while emitting one `update_progress(current = seg.end,
total = total_duration)` call per segment. Returns the materialized list
and the progress-report list. -/
def consumeStream (raws : List RawSegment) (total_duration : ℚ) :
    List RawSegment × List (ℚ × ℚ) :=
  raws.foldl
    (fun acc seg => (acc.1 ++ [seg], acc.2 ++ [(seg.end_, total_duration)]))
    ([], [])

/-! ## Concrete data used to instantiate the theorems -/

/-- A string of `n` letters `a`. -/
def bigA (n : ℕ) : String := ⟨List.replicate n 'a'⟩

/-- One raw segment whose trimmed text is one character over the ceiling. -/
def longRaws : List RawSegment := [⟨bigA (MAX_TEXT_LENGTH + 1), 0, 1, -1, none⟩]

/-- One raw segment whose trimmed text hits the ceiling exactly. -/
def exactRaws : List RawSegment := [⟨bigA MAX_TEXT_LENGTH, 0, 1, -1, none⟩]

/-- The word list of the spec's sharpening example: words from 1.0 to 3.2. -/
def sampleWords : List Word := [⟨1, 8/5⟩, ⟨17/10, 16/5⟩]

/-- The spec's sharpening example: segment bounds 0.9 to 3.3, word list
`sampleWords`. -/
def sampleSeg : RawSegment := ⟨"hello world", 9/10, 33/10, -1/4, some sampleWords⟩

/-- A two-segment stream in temporal order, the second carrying words. -/
def orderedRaws : List RawSegment :=
  [⟨"first", 0, 1, -1, none⟩, ⟨"second", 1, 2, -1, some [⟨11/10, 19/10⟩]⟩]


lemma attemptLoad_ok {st st' : CacheState} {s c : String} {oc : LoadOutcome}
    {m : ℕ} (h : attemptLoad st s c oc = (.ok m, st')) :
    m = st.next ∧ st'.slot = some (cacheKey s c, m) ∧ st'.next = st.next + 1 := by
  unfold attemptLoad at h
  by_cases ha : oc.autoFails <;> by_cases hc : oc.cpuFails <;>
    simp [ha, hc] at h <;>
    obtain ⟨h1, h2⟩ := h <;> subst h1 <;> simp [h2.symm]

lemma load_model_ok {st st' : CacheState} {s c : String} {oc : LoadOutcome}
    {m : ℕ} (h : load_model st s c oc = (.ok m, st')) :
    st'.slot = some (cacheKey s c, m) ∧
      ((st.slot = some (cacheKey s c, m) ∧ st' = st) ∨
        (m = st.next ∧ st'.next = st.next + 1)) := by
  unfold load_model at h
  match hs : st.slot with
  | none =>
    rw [hs] at h
    obtain ⟨h1, h2, h3⟩ := attemptLoad_ok h
    exact ⟨h2, Or.inr ⟨h1, h3⟩⟩
  | some (k, m0) =>
    rw [hs] at h
    by_cases hk : k = cacheKey s c
    · subst hk
      simp at h
      obtain ⟨h1, h2⟩ := h
      subst h2
      cases h1
      exact ⟨hs, Or.inl ⟨rfl, rfl⟩⟩
    · simp [hk] at h
      obtain ⟨h1, h2, h3⟩ := attemptLoad_ok h
      exact ⟨h2, Or.inr ⟨h1, h3⟩⟩

lemma load_model_ok_lt {st st' : CacheState} {s c : String} {oc : LoadOutcome}
    {m : ℕ} (hwf : st.WF) (h : load_model st s c oc = (.ok m, st')) :
    m < st'.next := by
  obtain ⟨_, hcase⟩ := load_model_ok h
  rcases hcase with ⟨hslot, rfl⟩ | ⟨rfl, hnext⟩
  · unfold CacheState.WF at hwf
    rw [hslot] at hwf
    exact hwf
  · omega

/-- C2: after `acquire(k1)` then `acquire(k2)` with `k1 ≠ k2` (both loads
succeeding), the handle returned for `k2` is not the handle returned for
`k1`, and the process-wide slot holds exactly one entry whose key is the
most recently requested composite key `size ++ "-" ++ compute_type`. -/
theorem acquire_distinct_evicts (st : CacheState) (hwf : st.WF)
    (s1 c1 s2 c2 : String) (oc1 oc2 : LoadOutcome)
    (m1 m2 : ℕ) (st1 st2 : CacheState)
    (hne : cacheKey s2 c2 ≠ cacheKey s1 c1)
    (h1 : load_model st s1 c1 oc1 = (.ok m1, st1))
    (h2 : load_model st1 s2 c2 oc2 = (.ok m2, st2)) :
    m2 ≠ m1 ∧ st2.slot = some (cacheKey s2 c2, m2) := by
  obtain ⟨hslot1, _⟩ := load_model_ok h1
  have hm1 : m1 < st1.next := load_model_ok_lt hwf h1
  obtain ⟨hslot2, hcase2⟩ := load_model_ok h2
  refine ⟨?_, hslot2⟩
  rcases hcase2 with ⟨hhit, rfl⟩ | ⟨rfl, _⟩
  · rw [hslot1] at hhit
    simp at hhit
    exact absurd hhit.1.symm hne
  · omega

/-- C2 witness: a concrete run `acquire("tiny","default")` then
`acquire("base","default")` from the empty slot. -/
theorem acquire_distinct_evicts_witness :
    (1 : ℕ) ≠ 0 ∧
      (⟨some ("base-default", 1), 2,
        [("tiny", "auto", "default"), ("base", "auto", "default")]⟩ : CacheState).slot =
        some (cacheKey "base" "default", 1) :=
  acquire_distinct_evicts ⟨none, 0, []⟩ trivial "tiny" "default" "base" "default"
    ⟨false, false, ""⟩ ⟨false, false, ""⟩ 0 1
    ⟨some ("tiny-default", 0), 1, [("tiny", "auto", "default")]⟩
    ⟨some ("base-default", 1), 2,
      [("tiny", "auto", "default"), ("base", "auto", "default")]⟩
    (by decide) rfl rfl

/-- C5: a second `acquire` with the same key (same `model_size` and
`compute_type`) returns the identical model instance and leaves the state
untouched: no eviction, no constructor call (the call log is unchanged). -/
theorem acquire_same_key_hit (st : CacheState) (s c : String)
    (oc1 oc2 : LoadOutcome) (m1 : ℕ) (st1 : CacheState)
    (h1 : load_model st s c oc1 = (.ok m1, st1)) :
    load_model st1 s c oc2 = (.ok m1, st1) := by
  obtain ⟨hslot1, _⟩ := load_model_ok h1
  simp [load_model, hslot1]

/-- C5 witness: a concrete `acquire("tiny","default")` twice from the
empty slot. -/
theorem acquire_same_key_hit_witness :
    load_model ⟨some ("tiny-default", 0), 1, [("tiny", "auto", "default")]⟩
        "tiny" "default" ⟨true, true, "irrelevant"⟩ =
      (.ok 0, ⟨some ("tiny-default", 0), 1, [("tiny", "auto", "default")]⟩) :=
  acquire_same_key_hit ⟨none, 0, []⟩ "tiny" "default"
    ⟨false, false, ""⟩ ⟨true, true, "irrelevant"⟩ 0
    ⟨some ("tiny-default", 0), 1, [("tiny", "auto", "default")]⟩ rfl

/-- C7: when both the `device="auto"` attempt and the CPU-int8 fallback
fail, `main` returns no record, sets a descriptive load-error message that
carries the underlying cause, and leaves the cache slot empty. (In the
embedding `main_load` is total, so no exception escapes the boundary:
the failure is delivered only as the message component.) -/
theorem main_load_double_failure (st : CacheState) (model_size : Option String)
    (c msg : String)
    (hmiss : ∀ m0 : ℕ,
      st.slot ≠ some (cacheKey (model_size.getD default_model_size) c, m0)) :
    (main_load st model_size c ⟨true, true, msg⟩).1 = none ∧
    (main_load st model_size c ⟨true, true, msg⟩).2.1 =
      some ("Failed to load model '" ++ model_size.getD default_model_size ++
        "': " ++ msg) ∧
    (main_load st model_size c ⟨true, true, msg⟩).2.2.slot = none := by
  unfold main_load load_model
  match hs : st.slot with
  | none => simp [attemptLoad, hs]
  | some (k, m0) =>
    have hk : k ≠ cacheKey (model_size.getD default_model_size) c := by
      intro h
      exact hmiss m0 (h ▸ hs)
    simp [hk, attemptLoad]

/-- C7 witness: a concrete double-failing load of `"base"` (the default
size) from the empty slot. -/
theorem main_load_double_failure_witness :
    (main_load ⟨none, 5, []⟩ none "float16" ⟨true, true, "cuda broke"⟩).1 = none ∧
    (main_load ⟨none, 5, []⟩ none "float16" ⟨true, true, "cuda broke"⟩).2.1 =
      some ("Failed to load model '" ++ (none : Option String).getD default_model_size ++
        "': " ++ "cuda broke") ∧
    (main_load ⟨none, 5, []⟩ none "float16" ⟨true, true, "cuda broke"⟩).2.2.slot = none :=
  main_load_double_failure ⟨none, 5, []⟩ none "float16" "cuda broke"
    (by simp)

/-- C9: when the acceleration attempt fails and the CPU-int8 fallback
succeeds, the fallback model is stored under the originally requested key
`model_size ++ "-" ++ compute_type` (the call log shows the `auto` attempt
followed by the `cpu`/`int8` attempt), and a subsequent `acquire` with the
same requested configuration is a pure cache hit: it returns the fallback
model and changes nothing — in particular acceleration is not retried. -/
theorem fallback_cached_under_requested_key (st : CacheState) (s c msg : String)
    (oc2 : LoadOutcome)
    (hmiss : ∀ m0 : ℕ, st.slot ≠ some (cacheKey s c, m0)) :
    load_model st s c ⟨true, false, msg⟩ =
      (.ok st.next,
        ⟨some (cacheKey s c, st.next), st.next + 1,
          st.calls ++ [(s, "auto", c), (s, "cpu", "int8")]⟩) ∧
    load_model
        ⟨some (cacheKey s c, st.next), st.next + 1,
          st.calls ++ [(s, "auto", c), (s, "cpu", "int8")]⟩ s c oc2 =
      (.ok st.next,
        ⟨some (cacheKey s c, st.next), st.next + 1,
          st.calls ++ [(s, "auto", c), (s, "cpu", "int8")]⟩) := by
  constructor
  · unfold load_model
    match hs : st.slot with
    | none => simp [attemptLoad]
    | some (k, m0) =>
      have hk : k ≠ cacheKey s c := by
        intro h
        exact hmiss m0 (h ▸ hs)
      simp [hk, attemptLoad]
  · simp [load_model]

/-- C9 witness: a concrete fallback load of `("large-v3", "float16")` from
the empty slot, followed by a cache hit under an oracle that would have
let acceleration succeed. -/
theorem fallback_cached_under_requested_key_witness :
    load_model ⟨none, 0, []⟩ "large-v3" "float16" ⟨true, false, "no gpu"⟩ =
      (.ok 0,
        ⟨some (cacheKey "large-v3" "float16", 0), 1,
          [("large-v3", "auto", "float16"), ("large-v3", "cpu", "int8")]⟩) ∧
    load_model
        ⟨some (cacheKey "large-v3" "float16", 0), 1,
          [("large-v3", "auto", "float16"), ("large-v3", "cpu", "int8")]⟩
        "large-v3" "float16" ⟨false, false, ""⟩ =
      (.ok 0,
        ⟨some (cacheKey "large-v3" "float16", 0), 1,
          [("large-v3", "auto", "float16"), ("large-v3", "cpu", "int8")]⟩) :=
  fallback_cached_under_requested_key ⟨none, 0, []⟩ "large-v3" "float16"
    "no gpu" ⟨false, false, ""⟩ (by simp)

/-! ## Pipeline helper lemmas -/

lemma pyRound_mono (n : ℕ) {x y : ℚ} (h : x ≤ y) : pyRound n x ≤ pyRound n y := by
  unfold pyRound
  have h2 : round (x * 10 ^ n) ≤ round (y * 10 ^ n) := by
    rw [round_eq, round_eq]
    apply Int.floor_le_floor
    have := mul_le_mul_of_nonneg_right h (by positivity : (0 : ℚ) ≤ 10 ^ n)
    linarith
  have h3 : ((round (x * 10 ^ n) : ℤ) : ℚ) ≤ ((round (y * 10 ^ n) : ℤ) : ℚ) := by
    exact_mod_cast h2
  exact div_le_div_of_nonneg_right h3 (by positivity)

lemma dropWhile_replicate_a (n : ℕ) :
    (List.replicate n 'a').dropWhile Char.isWhitespace = List.replicate n 'a' := by
  cases n with
  | zero => simp
  | succ k =>
    have hws : Char.isWhitespace 'a' = false := by decide
    rw [List.replicate_succ, List.dropWhile_cons]
    simp [hws]

lemma pyStrip_bigA (n : ℕ) : pyStrip (bigA n) = bigA n := by
  unfold pyStrip bigA
  simp [dropWhile_replicate_a, List.reverse_replicate]

lemma bigA_length (n : ℕ) : (bigA n).length = n := by
  simp [bigA, String.length]

lemma joinedText_single (s : RawSegment) :
    joinedText [s] = pyStrip s.text := by
  simp [joinedText, String.intercalate, String.intercalate.go]

lemma buildRecord_text (ts : String) (uwt force : Bool) (nl : String → String)
    (info : TranscriptionInfo) (raws : List RawSegment) :
    (buildRecord ts uwt force nl info raws).text =
      if MAX_TEXT_LENGTH < (joinedText raws).length then
        if force then joinedText raws
        else ⟨(joinedText raws).data.take MAX_TEXT_LENGTH⟩
      else joinedText raws := rfl

lemma buildRecord_segments (ts : String) (uwt force : Bool)
    (nl : String → String) (info : TranscriptionInfo) (raws : List RawSegment) :
    (buildRecord ts uwt force nl info raws).segments =
      raws.map (mkOutputSegment uwt) := rfl

lemma joinedText_longRaws : joinedText longRaws = bigA (MAX_TEXT_LENGTH + 1) := by
  rw [show longRaws = [⟨bigA (MAX_TEXT_LENGTH + 1), 0, 1, -1, none⟩] from rfl,
    joinedText_single]
  exact pyStrip_bigA _

lemma joinedText_exactRaws : joinedText exactRaws = bigA MAX_TEXT_LENGTH := by
  rw [show exactRaws = [⟨bigA MAX_TEXT_LENGTH, 0, 1, -1, none⟩] from rfl,
    joinedText_single]
  exact pyStrip_bigA _

/-- C1: with `force = false` and a joined trimmed text longer than 524288
characters, the returned `text` is the concatenation truncated to exactly
`MAX_TEXT_LENGTH` characters; with `force = true` the returned `text` is the
full concatenation unmodified. -/
theorem text_truncation (ts : String) (uwt : Bool) (nl : String → String)
    (info : TranscriptionInfo) (raws : List RawSegment)
    (hlong : MAX_TEXT_LENGTH < (joinedText raws).length) :
    (buildRecord ts uwt false nl info raws).text =
      ⟨(joinedText raws).data.take MAX_TEXT_LENGTH⟩ ∧
    (buildRecord ts uwt false nl info raws).text.length = MAX_TEXT_LENGTH ∧
    (buildRecord ts uwt true nl info raws).text = joinedText raws := by
  have ht0 := buildRecord_text ts uwt false nl info raws
  have ht1 := buildRecord_text ts uwt true nl info raws
  rw [if_pos hlong, if_neg Bool.false_ne_true] at ht0
  rw [if_pos hlong, if_pos rfl] at ht1
  refine ⟨ht0, ?_, ht1⟩
  rw [ht0]
  show ((joinedText raws).data.take MAX_TEXT_LENGTH).length = MAX_TEXT_LENGTH
  rw [List.length_take]
  have hlen : MAX_TEXT_LENGTH ≤ (joinedText raws).data.length := hlong.le
  omega

/-- C1 witness: a single raw segment of 524289 letters `a`. -/
theorem text_truncation_witness :
    MAX_TEXT_LENGTH < (joinedText longRaws).length ∧
    ((buildRecord "base" false false id ⟨"en", 99/100, 10⟩ longRaws).text =
        ⟨(joinedText longRaws).data.take MAX_TEXT_LENGTH⟩ ∧
      (buildRecord "base" false false id ⟨"en", 99/100, 10⟩ longRaws).text.length =
        MAX_TEXT_LENGTH ∧
      (buildRecord "base" false true id ⟨"en", 99/100, 10⟩ longRaws).text =
        joinedText longRaws) := by
  have hlong : MAX_TEXT_LENGTH < (joinedText longRaws).length := by
    rw [joinedText_longRaws, bigA_length]
    omega
  exact ⟨hlong, text_truncation "base" false id ⟨"en", 99/100, 10⟩ longRaws hlong⟩

/-- C10: the truncation threshold is strict — a joined text of exactly
524288 characters is returned unmodified regardless of `force`, and with
`force = false` the returned text never exceeds 524288 characters. -/
theorem truncation_threshold_strict (ts : String) (uwt : Bool)
    (nl : String → String) (info : TranscriptionInfo) (raws : List RawSegment) :
    (∀ force : Bool, (joinedText raws).length = MAX_TEXT_LENGTH →
      (buildRecord ts uwt force nl info raws).text = joinedText raws) ∧
    (buildRecord ts uwt false nl info raws).text.length ≤ MAX_TEXT_LENGTH := by
  constructor
  · intro force heq
    have hnot : ¬ MAX_TEXT_LENGTH < (joinedText raws).length := by omega
    rw [buildRecord_text, if_neg hnot]
  · by_cases h : MAX_TEXT_LENGTH < (joinedText raws).length
    · rw [buildRecord_text, if_pos h, if_neg Bool.false_ne_true]
      show ((joinedText raws).data.take MAX_TEXT_LENGTH).length ≤ MAX_TEXT_LENGTH
      rw [List.length_take]
      omega
    · rw [buildRecord_text, if_neg h]
      omega

/-- C10 witness: a single raw segment of exactly 524288 letters `a`. -/
theorem truncation_threshold_strict_witness :
    (joinedText exactRaws).length = MAX_TEXT_LENGTH ∧
    (buildRecord "base" false true id ⟨"en", 99/100, 10⟩ exactRaws).text =
      joinedText exactRaws ∧
    (buildRecord "base" false false id ⟨"en", 99/100, 10⟩ exactRaws).text.length ≤
      MAX_TEXT_LENGTH := by
  have heq : (joinedText exactRaws).length = MAX_TEXT_LENGTH := by
    rw [joinedText_exactRaws, bigA_length]
  exact ⟨heq,
    (truncation_threshold_strict "base" false id ⟨"en", 99/100, 10⟩ exactRaws).1 true heq,
    (truncation_threshold_strict "base" false id ⟨"en", 99/100, 10⟩ exactRaws).2⟩

lemma pyRoundR_mono (n : ℕ) {x y : ℝ} (h : x ≤ y) : pyRoundR n x ≤ pyRoundR n y := by
  unfold pyRoundR
  have h2 : round (x * 10 ^ n) ≤ round (y * 10 ^ n) := by
    rw [round_eq, round_eq]
    apply Int.floor_le_floor
    have := mul_le_mul_of_nonneg_right h (by positivity : (0 : ℝ) ≤ 10 ^ n)
    linarith
  have h3 : ((round (x * 10 ^ n) : ℤ) : ℝ) ≤ ((round (y * 10 ^ n) : ℤ) : ℝ) := by
    exact_mod_cast h2
  exact div_le_div_of_nonneg_right h3 (by positivity)

lemma pyRoundR_zero (n : ℕ) : pyRoundR n 0 = 0 := by
  unfold pyRoundR
  simp

lemma pyRoundR_one (n : ℕ) : pyRoundR n 1 = 1 := by
  unfold pyRoundR
  rw [one_mul, show ((10 : ℝ) ^ n) = (((10 ^ n : ℕ) : ℤ) : ℝ) by push_cast; ring,
    round_intCast]
  exact div_self (by positivity)

lemma mkOutputSegment_score (uwt : Bool) (seg : RawSegment) :
    (mkOutputSegment uwt seg).score =
      pyRoundR 4 (Real.exp (seg.avg_logprob : ℝ)) := rfl

lemma mkOutputSegment_start_time (uwt : Bool) (seg : RawSegment) :
    (mkOutputSegment uwt seg).start_time =
      pyRound 3 (sharpTimes uwt seg).1 := rfl

lemma mkOutputSegment_end_time (uwt : Bool) (seg : RawSegment) :
    (mkOutputSegment uwt seg).end_time =
      pyRound 3 (sharpTimes uwt seg).2 := rfl

lemma sharpTimes_false (seg : RawSegment) :
    sharpTimes false seg = (seg.start, seg.end_) := by
  unfold sharpTimes
  cases seg.words with
  | none => rfl
  | some l => cases l <;> rfl

lemma sharpTimes_words (seg : RawSegment) (w : Word) (ws : List Word)
    (h : seg.words = some (w :: ws)) :
    sharpTimes true seg = (w.start, (ws.getLastD w).end_) := by
  unfold sharpTimes
  rw [h]

lemma sharpTimes_none (seg : RawSegment) (h : seg.words = none) :
    sharpTimes true seg = (seg.start, seg.end_) := by
  unfold sharpTimes
  rw [h]

lemma sharpTimes_nil (seg : RawSegment) (h : seg.words = some []) :
    sharpTimes true seg = (seg.start, seg.end_) := by
  unfold sharpTimes
  rw [h]

/-- C3 counterexample: at `avg_logprob = -20` (which is ≤ 0) the output
score, `exp(avg_logprob)` rounded to 4 decimals, equals 0 and therefore
does not lie in the interval (0, 1]. -/
theorem score_rounds_to_zero :
    (mkOutputSegment false ⟨"x", 0, 1, -20, none⟩).score = 0 ∧
    ¬(0 < (mkOutputSegment false ⟨"x", 0, 1, -20, none⟩).score ∧
      (mkOutputSegment false ⟨"x", 0, 1, -20, none⟩).score ≤ 1) := by
  have hc : (((-20 : ℚ) : ℝ)) = (-20 : ℝ) := by norm_num
  have hup : Real.exp (-20 : ℝ) * 10 ^ 4 < 1 / 2 := by
    rw [Real.exp_neg]
    have h1 : (3 : ℝ) ≤ Real.exp 2 := by
      have := Real.add_one_le_exp (2 : ℝ)
      linarith
    have h2 : Real.exp 20 = Real.exp 2 ^ 10 := by
      rw [← Real.exp_nat_mul]
      norm_num
    have h3 : (3 : ℝ) ^ 10 ≤ Real.exp 2 ^ 10 :=
      pow_le_pow_left₀ (by norm_num) h1 10
    have h4 : (20000 : ℝ) < Real.exp 20 := by
      rw [h2]
      nlinarith [h3]
    have h5 : (0 : ℝ) < Real.exp 20 := Real.exp_pos 20
    rw [inv_mul_eq_div, div_lt_iff₀ h5]
    nlinarith
  have hpos : (0 : ℝ) < Real.exp (-20 : ℝ) * 10 ^ 4 := by positivity
  have hround : round (Real.exp (-20 : ℝ) * 10 ^ 4) = 0 := by
    rw [round_eq, Int.floor_eq_zero_iff, Set.mem_Ico]
    constructor <;> linarith
  have hscore : (mkOutputSegment false ⟨"x", 0, 1, -20, none⟩).score = 0 := by
    rw [mkOutputSegment_score]
    show pyRoundR 4 (Real.exp (((-20 : ℚ) : ℝ))) = 0
    rw [hc]
    unfold pyRoundR
    rw [hround]
    simp
  refine ⟨hscore, ?_⟩
  rw [hscore]
  intro hcon
  exact lt_irrefl 0 hcon.1

/-- C3 (amended): the output score equals `exp(avg_logprob)` rounded to 4
decimals; for `avg_logprob ≤ 0` the unrounded `exp(avg_logprob)` lies in
(0, 1] and the rounded score lies in the closed interval [0, 1] — it can be
exactly 0 when `exp(avg_logprob)` is below half the rounding step. -/
theorem score_bounds (uwt : Bool) (seg : RawSegment)
    (h : seg.avg_logprob ≤ 0) :
    (mkOutputSegment uwt seg).score =
      pyRoundR 4 (Real.exp (seg.avg_logprob : ℝ)) ∧
    0 < Real.exp ((seg.avg_logprob : ℝ)) ∧
    Real.exp ((seg.avg_logprob : ℝ)) ≤ 1 ∧
    0 ≤ (mkOutputSegment uwt seg).score ∧
    (mkOutputSegment uwt seg).score ≤ 1 := by
  have hs := mkOutputSegment_score uwt seg
  have hR : ((seg.avg_logprob : ℝ)) ≤ 0 := by exact_mod_cast h
  have he1 : Real.exp ((seg.avg_logprob : ℝ)) ≤ 1 := Real.exp_le_one_iff.2 hR
  have he0 : 0 < Real.exp ((seg.avg_logprob : ℝ)) := Real.exp_pos _
  refine ⟨hs, he0, he1, ?_, ?_⟩
  · rw [hs]
    have hm := pyRoundR_mono 4 he0.le
    rwa [pyRoundR_zero] at hm
  · rw [hs]
    have hm := pyRoundR_mono 4 he1
    rwa [pyRoundR_one] at hm

/-- C3 witness: the amended bounds at a segment with `avg_logprob = -1`. -/
theorem score_bounds_witness :
    ((⟨"hi", 0, 1, -1, none⟩ : RawSegment).avg_logprob ≤ 0) ∧
    ((mkOutputSegment false ⟨"hi", 0, 1, -1, none⟩).score =
        pyRoundR 4 (Real.exp (((⟨"hi", 0, 1, -1, none⟩ : RawSegment).avg_logprob : ℝ))) ∧
      0 < Real.exp (((⟨"hi", 0, 1, -1, none⟩ : RawSegment).avg_logprob : ℝ)) ∧
      Real.exp (((⟨"hi", 0, 1, -1, none⟩ : RawSegment).avg_logprob : ℝ)) ≤ 1 ∧
      0 ≤ (mkOutputSegment false ⟨"hi", 0, 1, -1, none⟩).score ∧
      (mkOutputSegment false ⟨"hi", 0, 1, -1, none⟩).score ≤ 1) :=
  ⟨by norm_num, score_bounds false ⟨"hi", 0, 1, -1, none⟩ (by norm_num)⟩

/-- C4: when word timestamps were requested and the segment carries a
non-empty word list, the output boundaries are the first word's start and
the last word's end; otherwise they are the segment's own boundaries —
each rounded to 3 decimals. -/
theorem word_timing_sharpening (uwt : Bool) (seg : RawSegment) :
    (∀ w ws, uwt = true → seg.words = some (w :: ws) →
      (mkOutputSegment uwt seg).start_time = pyRound 3 w.start ∧
      (mkOutputSegment uwt seg).end_time = pyRound 3 (ws.getLastD w).end_) ∧
    ((uwt = true → seg.words = none ∨ seg.words = some []) →
      (mkOutputSegment uwt seg).start_time = pyRound 3 seg.start ∧
      (mkOutputSegment uwt seg).end_time = pyRound 3 seg.end_) := by
  cases uwt with
  | false =>
    refine ⟨fun w ws huwt _ => absurd huwt (by simp), fun _ => ?_⟩
    rw [mkOutputSegment_start_time, mkOutputSegment_end_time, sharpTimes_false]
    exact ⟨rfl, rfl⟩
  | true =>
    refine ⟨fun w ws _ hw => ?_, fun hcond => ?_⟩
    · rw [mkOutputSegment_start_time, mkOutputSegment_end_time,
        sharpTimes_words seg w ws hw]
      exact ⟨rfl, rfl⟩
    · rcases hcond rfl with hn | he
      · rw [mkOutputSegment_start_time, mkOutputSegment_end_time,
          sharpTimes_none seg hn]
        exact ⟨rfl, rfl⟩
      · rw [mkOutputSegment_start_time, mkOutputSegment_end_time,
          sharpTimes_nil seg he]
        exact ⟨rfl, rfl⟩

/-- C4 witness: the spec's sharpening example — words spanning 1.0 to 3.2
inside segment bounds 0.9 to 3.3 give output bounds 1.0 and 3.2. -/
theorem word_timing_sharpening_witness :
    sampleSeg.words = some (⟨1, 8/5⟩ :: [⟨17/10, 16/5⟩]) ∧
    (mkOutputSegment true sampleSeg).start_time =
      pyRound 3 (⟨1, 8/5⟩ : Word).start ∧
    (mkOutputSegment true sampleSeg).end_time =
      pyRound 3 ([(⟨17/10, 16/5⟩ : Word)].getLastD ⟨1, 8/5⟩).end_ := by
  have h := (word_timing_sharpening true sampleSeg).1 ⟨1, 8/5⟩ [⟨17/10, 16/5⟩]
    rfl rfl
  exact ⟨rfl, h.1, h.2⟩

lemma mkOutputSegment_time_le (uwt : Bool) (s : RawSegment)
    (hse : s.start ≤ s.end_)
    (hw : ∀ w ws, s.words = some (w :: ws) → w.start ≤ (ws.getLastD w).end_) :
    (mkOutputSegment uwt s).start_time ≤ (mkOutputSegment uwt s).end_time := by
  rw [mkOutputSegment_start_time, mkOutputSegment_end_time]
  cases uwt with
  | false =>
    rw [sharpTimes_false]
    exact pyRound_mono 3 hse
  | true =>
    cases hws : s.words with
    | none =>
      rw [sharpTimes_none s hws]
      exact pyRound_mono 3 hse
    | some l =>
      cases l with
      | nil =>
        rw [sharpTimes_nil s hws]
        exact pyRound_mono 3 hse
      | cons w ws =>
        rw [sharpTimes_words s w ws hws]
        exact pyRound_mono 3 (hw w ws hws)

/-- C6: the output `segments` list is the 1:1, order-preserving image of
the raw segment stream, and — provided every raw segment is temporally
well-formed (`start ≤ end`, and any word list runs from its first word's
start to no later than its last word's end) — every output segment
satisfies `start_time ≤ end_time`. -/
theorem segments_order_and_time_bounds (ts : String) (uwt force : Bool)
    (nl : String → String) (info : TranscriptionInfo) (raws : List RawSegment)
    (hse : ∀ s ∈ raws, s.start ≤ s.end_)
    (hwords : ∀ s ∈ raws, ∀ w ws, s.words = some (w :: ws) →
      w.start ≤ (ws.getLastD w).end_) :
    (buildRecord ts uwt force nl info raws).segments =
      raws.map (mkOutputSegment uwt) ∧
    ∀ o ∈ (buildRecord ts uwt force nl info raws).segments,
      o.start_time ≤ o.end_time := by
  refine ⟨buildRecord_segments ts uwt force nl info raws, ?_⟩
  intro o ho
  rw [buildRecord_segments, List.mem_map] at ho
  obtain ⟨s, hs, rfl⟩ := ho
  exact mkOutputSegment_time_le uwt s (hse s hs) (hwords s hs)

/-- C6 witness: a concrete two-segment stream, the second with a word
list. -/
theorem segments_order_and_time_bounds_witness :
    (∀ s ∈ orderedRaws, s.start ≤ s.end_) ∧
    ((buildRecord "base" true false id ⟨"en", 1/2, 2⟩ orderedRaws).segments =
        orderedRaws.map (mkOutputSegment true) ∧
      ∀ o ∈ (buildRecord "base" true false id ⟨"en", 1/2, 2⟩ orderedRaws).segments,
        o.start_time ≤ o.end_time) := by
  have hse : ∀ s ∈ orderedRaws, s.start ≤ s.end_ := by decide
  have hwords : ∀ s ∈ orderedRaws, ∀ w ws, s.words = some (w :: ws) →
      w.start ≤ (ws.getLastD w).end_ := by
    intro s hs w ws hws
    simp only [orderedRaws, List.mem_cons, List.not_mem_nil, or_false] at hs
    rcases hs with rfl | rfl
    · simp at hws
    · simp only [Option.some.injEq, List.cons.injEq] at hws
      obtain ⟨rfl, rfl⟩ := hws
      norm_num [List.getLastD]
  exact ⟨hse, segments_order_and_time_bounds "base" true false id ⟨"en", 1/2, 2⟩
    orderedRaws hse hwords⟩

lemma consumeStream_foldl (total : ℚ) :
    ∀ (raws : List RawSegment) (acc1 : List RawSegment) (acc2 : List (ℚ × ℚ)),
      raws.foldl
        (fun acc seg => (acc.1 ++ [seg], acc.2 ++ [(seg.end_, total)]))
        (acc1, acc2) =
      (acc1 ++ raws, acc2 ++ raws.map fun s => (s.end_, total))
  | [], acc1, acc2 => by simp
  | seg :: rest, acc1, acc2 => by
    rw [List.foldl_cons,
      consumeStream_foldl total rest (acc1 ++ [seg]) (acc2 ++ [(seg.end_, total)])]
    simp

/-- C8: consuming the stream reports progress exactly once per segment, in
stream order, as the pair `(current = segment.end, total = round(duration, 2))`;
when the stream is in temporal order the reported `current` values are
monotonically non-decreasing. -/
theorem progress_reports (raws : List RawSegment) (dur : ℚ)
    (hord : List.Pairwise (fun a b => a.end_ ≤ b.end_) raws) :
    (consumeStream raws (pyRound 2 dur)).1 = raws ∧
    (consumeStream raws (pyRound 2 dur)).2 =
      raws.map (fun s => (s.end_, pyRound 2 dur)) ∧
    List.Pairwise (· ≤ ·)
      (((consumeStream raws (pyRound 2 dur)).2).map Prod.fst) := by
  have h := consumeStream_foldl (pyRound 2 dur) raws [] []
  unfold consumeStream
  rw [h]
  refine ⟨by simp, by simp, ?_⟩
  simp only [List.nil_append, List.map_map]
  rw [List.pairwise_map]
  exact hord

/-- C8 witness: the concrete two-segment stream with duration 1.95. -/
theorem progress_reports_witness :
    List.Pairwise (fun a b : RawSegment => a.end_ ≤ b.end_) orderedRaws ∧
    ((consumeStream orderedRaws (pyRound 2 (39/20))).1 = orderedRaws ∧
      (consumeStream orderedRaws (pyRound 2 (39/20))).2 =
        orderedRaws.map (fun s => (s.end_, pyRound 2 (39/20))) ∧
      List.Pairwise (· ≤ ·)
        (((consumeStream orderedRaws (pyRound 2 (39/20))).2).map Prod.fst)) := by
  have hord : List.Pairwise (fun a b : RawSegment => a.end_ ≤ b.end_)
      orderedRaws := by
    unfold orderedRaws
    refine List.Pairwise.cons ?_ (List.Pairwise.cons (by simp) List.Pairwise.nil)
    intro b hb
    rw [List.mem_singleton] at hb
    subst hb
    norm_num
  exact ⟨hord, progress_reports orderedRaws (39/20) hord⟩

end DorsalWhisper
